import Mathlib

/-!
Shallow embedding of the rivoli-bot core (`src/rivoli/models.py`,
`src/rivoli/compute.py`) together with theorems checking the
specification's claims about it.

Modelling conventions:
* Python `datetime.date` is a record of (year, month, day); one-day
  arithmetic (`timedelta(days=1)`) is implemented by `addOneDay` /
  `subOneDay` over the proleptic Gregorian calendar, and `ValidDate`
  captures the values representable by a Python `date` object.
* Python `dict` values are association lists with insertion-order
  semantics (`dictInsert` overwrites in place, otherwise appends).
* Fallible code (`raise ValueError`) is embedded in `Except String`.
* The float salience scores of `compute.py` are all exact multiples of
  0.01, so they are embedded as integers measured in hundredths
  (0.75 ↦ 75); float divisions compared against constants become exact
  integer inequalities, and `_round_to_twentieth` receives its argument
  as an exact fraction numerator/denominator.
* `random.choice` is modelled by an explicit random source `r : Nat`
  selecting position `r % length` of the candidate list.
-/

deriving instance DecidableEq for Except

namespace Rivoli

/-- Calendar date, embedding Python `datetime.date`. -/
structure Date where
  year : Nat
  month : Nat
  day : Nat
deriving DecidableEq

/-- Gregorian leap-year rule used by Python's `datetime`. -/
def isLeapYear (y : Nat) : Bool :=
  (y % 4 == 0 && y % 100 != 0) || y % 400 == 0

/-- Number of days in a month of a given year (Python `calendar`/`datetime`). -/
def daysInMonth (y m : Nat) : Nat :=
  if m = 2 then (if isLeapYear y then 29 else 28)
  else if m = 4 ∨ m = 6 ∨ m = 9 ∨ m = 11 then 30
  else 31

/-- The dates representable as Python `datetime.date` objects. -/
def ValidDate (d : Date) : Prop :=
  1 ≤ d.year ∧ d.year ≤ 9999 ∧ 1 ≤ d.month ∧ d.month ≤ 12 ∧
    1 ≤ d.day ∧ d.day ≤ daysInMonth d.year d.month

instance : DecidablePred ValidDate := fun _ => by unfold ValidDate; infer_instance

/-- `d + timedelta(days=1)` on valid dates. -/
def addOneDay (d : Date) : Date :=
  if d.day < daysInMonth d.year d.month then ⟨d.year, d.month, d.day + 1⟩
  else if d.month < 12 then ⟨d.year, d.month + 1, 1⟩
  else ⟨d.year + 1, 1, 1⟩

/-- `d - timedelta(days=1)` on valid dates. -/
def subOneDay (d : Date) : Date :=
  if 1 < d.day then ⟨d.year, d.month, d.day - 1⟩
  else if 1 < d.month then ⟨d.year, d.month - 1, daysInMonth d.year (d.month - 1)⟩
  else ⟨d.year - 1, 12, 31⟩

/-- Chronological comparison of dates (Python `date.__le__`),
lexicographic on (year, month, day). -/
def dateLe (a b : Date) : Bool :=
  a.year < b.year ||
    (a.year == b.year &&
      (a.month < b.month || (a.month == b.month && a.day ≤ b.day)))

/-- Python `dict` assignment `d[k] = v`: overwrite in place if the key is
present, otherwise append at the end (insertion order). -/
def dictInsert {κ ν : Type} [DecidableEq κ] : List (κ × ν) → κ → ν → List (κ × ν)
  | [], k, v => [(k, v)]
  | (k', v') :: rest, k, v =>
    if k' = k then (k', v) :: rest else (k', v') :: dictInsert rest k v

/-- The dict `{k: v for (k, v) in pairs}`. -/
def dictOf {κ ν : Type} [DecidableEq κ] (pairs : List (κ × ν)) : List (κ × ν) :=
  pairs.foldl (fun acc p => dictInsert acc p.1 p.2) []

/-- Python `d.get(k)` / `k in d`. -/
def dictGet {κ ν : Type} [DecidableEq κ] : List (κ × ν) → κ → Option ν
  | [], _ => none
  | (k', v') :: rest, k => if k' = k then some v' else dictGet rest k

/-- Python `d.values()` (insertion order). -/
def dictValues {κ ν : Type} (d : List (κ × ν)) : List ν := d.map (·.2)

/-- `DayCount` from `models.py`. -/
structure DayCount where
  date : Date
  count : Int
deriving DecidableEq

/-- `_check_continuous_and_increasing` from `models.py`: every entry must be
exactly one day before the next (`day.date != day_after.date - timedelta(1)`
is an error). -/
def _check_continuous_and_increasing : List DayCount → Except String Unit
  | day :: day_after :: rest =>
    if day.date ≠ subOneDay day_after.date then
      .error "Counter not increasing and continuous"
    else _check_continuous_and_increasing (day_after :: rest)
  | _ => .ok ()

/-- `CountHistory` from `models.py` (the validated series; the
`day_to_count` dict is the derived field, computed by `day_to_count`). -/
structure CountHistory where
  daily_counts : List DayCount
deriving DecidableEq

/-- `CountHistory.__post_init__`: validation performed at construction. -/
def mkCountHistory (daily_counts : List DayCount) : Except String CountHistory :=
  match _check_continuous_and_increasing daily_counts with
  | .error e => .error e
  | .ok _ => .ok ⟨daily_counts⟩

/-- The derived dict `{count.date: count.count for count in daily_counts}`. -/
def day_to_count (ch : CountHistory) : List (Date × Int) :=
  dictOf (ch.daily_counts.map fun c => (c.date, c.count))

/-- `Month` from `models.py`. -/
structure Month where
  month : Nat
  year : Nat
deriving DecidableEq

/-- `Tweet` from `models.py`. -/
structure Tweet where
  content : String
deriving DecidableEq

/-- `Tweet.__post_init__`: the 280-character invariant checked at
construction. -/
def mkTweet (content : String) : Except String Tweet :=
  if content.length > 280 then
    .error "Tweet content must contain less than 280 characters."
  else .ok ⟨content⟩

/-- `Hashtag` from `models.py`. -/
structure Hashtag where
  content : String
deriving DecidableEq

/-- Decimal digits of a natural number, least significant first,
computed with explicit fuel so that the kernel can evaluate it. -/
def natDigitsAux : Nat → Nat → List Nat
  | 0, _ => []
  | fuel + 1, n => if n = 0 then [] else n % 10 :: natDigitsAux fuel (n / 10)

/-- Decimal digits, least significant first (empty for 0). -/
def natDigits (n : Nat) : List Nat := natDigitsAux n n

/-- Character of one decimal digit. -/
def digitChar (d : Nat) : Char := Char.ofNat (48 + d)

/-- Python `str(n)` for a natural number, as a character list. -/
def natChars (n : Nat) : List Char :=
  if n = 0 then ['0'] else ((natDigits n).reverse).map digitChar

/-- Python `str(i)` for an integer, as a character list. -/
def intChars (i : Int) : List Char :=
  if i < 0 then '-' :: natChars i.natAbs else natChars i.natAbs

/-- Python `str(i)` / f-string rendering of an integer. -/
def int_to_str (i : Int) : String := ⟨intChars i⟩

/-- `strftime` zero-padding of a number to a given width. -/
def padChars (width n : Nat) : List Char :=
  List.replicate (width - (natChars n).length) '0' ++ natChars n

/-- Rendering of a natural number in a message (Python f-string). -/
def nat_to_str (n : Nat) : String := ⟨natChars n⟩

/-- `_safe_get_count` from `compute.py`. -/
def _safe_get_count (day : Date) (count_history : CountHistory) : Except String Int :=
  match dictGet (day_to_count count_history) day with
  | some c => .ok c
  | none => .error "Day not found in count_history."

/-- Python `max` over a list (error on an empty sequence). -/
def listMax : List Int → Except String Int
  | [] => .error "max() arg is an empty sequence"
  | v :: vs => .ok (vs.foldl max v)

/-- `_day_is_absolute_maximum` from `compute.py`. -/
def _day_is_absolute_maximum (day : Date) (count_history : CountHistory) :
    Except String Bool := do
  let day_count ← _safe_get_count day count_history
  let max_count ← listMax (dictValues (day_to_count count_history))
  .ok (day_count = max_count)

/-- Python `sorted(values, reverse=True)`. -/
def sortedDesc (values : List Int) : List Int := List.insertionSort (· ≥ ·) values

/-- The `enumerate` loop of `_optimistic_rank`: index of the first
occurrence of `target`. -/
def findRank (target : Int) : List Int → Option Nat
  | [] => none
  | v :: vs => if v = target then some 0 else (findRank target vs).map (· + 1)

/-- `_optimistic_rank` from `compute.py`. -/
def _optimistic_rank (target : Int) (values : List Int) : Except String Nat :=
  match findRank target (sortedDesc values) with
  | some r => .ok r
  | none => .error "target not found in values."

/-- `_day_rank` from `compute.py`. -/
def _day_rank (day : Date) (count_history : CountHistory) : Except String Nat := do
  let day_count ← _safe_get_count day count_history
  _optimistic_rank day_count (dictValues (day_to_count count_history))

/-- `_day_is_last_day_of_month` from `compute.py`. -/
def _day_is_last_day_of_month (day : Date) : Bool := (addOneDay day).day == 1

/-- `_day_is_last_day_of_year` from `compute.py`. -/
def _day_is_last_day_of_year (day : Date) : Bool := day.day == 31 && day.month == 12

/-- `_get_month` from `compute.py`. -/
def _get_month (day : Date) : Month := ⟨day.month, day.year⟩

/-- `_number_is_funny` from `compute.py`; `len(set(str(number)))` is the
number of distinct characters of the decimal rendering, and Python `%`
with a positive modulus agrees with `Int.emod`. -/
def _number_is_funny (number : Int) : Bool :=
  if (intChars number).dedup.length = 1 ∧ 3 ≤ (intChars number).length then true
  else if number % ((10 : Int) ^ ((intChars number).length - 1)) = 0 then true
  else false

/-- Python `dict` update `result[month].append(count)` /
`result[month] = [count]` used by the grouping functions. -/
def dictAppendInt {κ : Type} [DecidableEq κ] :
    List (κ × List Int) → κ → Int → List (κ × List Int)
  | [], k, c => [(k, [c])]
  | (k', vs) :: rest, k, c =>
    if k' = k then (k', vs ++ [c]) :: rest else (k', vs) :: dictAppendInt rest k c

/-- `_group_by_month` from `compute.py`. -/
def _group_by_month (count_history : CountHistory) : List (Month × List Int) :=
  count_history.daily_counts.foldl
    (fun acc day => dictAppendInt acc (_get_month day.date) day.count) []

/-- `_group_by_year` from `compute.py`. -/
def _group_by_year (count_history : CountHistory) : List (Nat × List Int) :=
  count_history.daily_counts.foldl
    (fun acc day => dictAppendInt acc day.date.year day.count) []

/-- `_get_month_to_count` from `compute.py`. -/
def _get_month_to_count (count_history : CountHistory) : List (Month × Int) :=
  (_group_by_month count_history).map (fun p => (p.1, p.2.sum))

/-- `_get_year_to_count` from `compute.py`. -/
def _get_year_to_count (count_history : CountHistory) : List (Nat × Int) :=
  (_group_by_year count_history).map (fun p => (p.1, p.2.sum))

/-- Python `d[k]` (raises `KeyError` when absent). -/
def dictGetE {κ ν : Type} [DecidableEq κ] (d : List (κ × ν)) (k : κ) :
    Except String ν :=
  match dictGet d k with
  | some v => .ok v
  | none => .error "KeyError"

/-- `_round_to_twentieth` from `compute.py`; its float argument is passed
as the exact fraction `p / q` (the sole call site passes
`(rank + 1) / among_nb_days`), and `ceil(x * 20) * 5` becomes exact
ceiling division.  A negative argument cannot be expressed. -/
def _round_to_twentieth (p q : Nat) : Except String Nat :=
  if q = 0 then .error "division by zero"
  else if p > q then .error "Expecting float between 0 and 1"
  else .ok (((p * 20 + q - 1) / q) * 5)

/-- `_capitalize_first_letter` from `compute.py` (the first character is
always ASCII at the call sites, where Python and Lean `toUpper` agree). -/
def _capitalize_first_letter (str_ : String) : String :=
  match str_.data with
  | [] => str_
  | c :: cs => ⟨c.toUpper :: cs⟩

/-- `_build_french_ordinal` from `compute.py`. -/
def _build_french_ordinal (rank : Nat) : String :=
  if rank = 0 then "" else nat_to_str (rank + 1) ++ "ème "

/-- `month_to_french_word` from `utils.py`; the `KeyError` raised on a
month outside 1..12 is unreachable for months of valid dates and is
modelled by the empty string. -/
def month_to_french_word (month : Nat) : String :=
  if month = 1 then "Janvier" else if month = 2 then "Février"
  else if month = 3 then "Mars" else if month = 4 then "Avril"
  else if month = 5 then "Mai" else if month = 6 then "Juin"
  else if month = 7 then "Juillet" else if month = 8 then "Août"
  else if month = 9 then "Septembre" else if month = 10 then "Octobre"
  else if month = 11 then "Novembre" else if month = 12 then "Décembre"
  else ""

/-- `_month_to_french` from `compute.py`. -/
def _month_to_french (month : Month) : String :=
  month_to_french_word month.month ++ " " ++ nat_to_str month.year

/-- `HistoricalRecordEvent` from `compute.py`. -/
structure HistoricalRecordEvent where
deriving DecidableEq

def HistoricalRecordEvent.default_score (_ : HistoricalRecordEvent) : Int := 100

def HistoricalRecordEvent.default_message (_ : HistoricalRecordEvent) : String :=
  "Record historique !"

/-- `MonthRecordEvent` from `compute.py`. -/
structure MonthRecordEvent where
  day : Date
deriving DecidableEq

def MonthRecordEvent.default_score (e : MonthRecordEvent) : Int :=
  if 15 ≤ e.day.day then 80
  else if e.day.day ≤ 5 then 0
  else 50

def MonthRecordEvent.default_message (_ : MonthRecordEvent) : String :=
  "Record du mois !"

/-- `DayHistoricalRankEvent` from `compute.py` (construction validated by
`mkDayHistoricalRankEvent`). -/
structure DayHistoricalRankEvent where
  rank : Nat
  among_nb_days : Nat
deriving DecidableEq

/-- `DayHistoricalRankEvent.__post_init__`. -/
def mkDayHistoricalRankEvent (rank among_nb_days : Nat) :
    Except String DayHistoricalRankEvent :=
  if among_nb_days ≤ rank then
    .error "rank must be strictly smaller than total nb days"
  else .ok ⟨rank, among_nb_days⟩

/-- `rank / among_nb_days <= 0.05` and `<= 0.3` as exact comparisons
(`among_nb_days` is positive for every constructed event, where the
integer inequalities coincide with the float ones). -/
def DayHistoricalRankEvent.default_score (e : DayHistoricalRankEvent) : Int :=
  if e.rank * 100 ≤ 5 * e.among_nb_days then 80
  else if e.rank * 100 ≤ 30 * e.among_nb_days then 50
  else 0

/-- The `ValueError` of `_round_to_twentieth` is unreachable for a
constructed event (`rank < among_nb_days`) and is modelled by `""`. -/
def DayHistoricalRankEvent.default_message (e : DayHistoricalRankEvent) : String :=
  if e.rank ≤ 10 then
    _capitalize_first_letter (_build_french_ordinal e.rank ++ "meilleur jour historique.")
  else
    match _round_to_twentieth (e.rank + 1) e.among_nb_days with
    | .ok top => "Top " ++ nat_to_str top ++ "%."
    | .error _ => ""

/-- `MonthSummaryEvent` from `compute.py`. -/
structure MonthSummaryEvent where
  month : Month
  month_count : Int
  month_rank : Nat
deriving DecidableEq

def MonthSummaryEvent.default_score (_ : MonthSummaryEvent) : Int := 95

def MonthSummaryEvent.default_message (e : MonthSummaryEvent) : String :=
  _month_to_french e.month ++ " : " ++ _build_french_ordinal e.month_rank ++
    "meilleur mois de l\x27histoire avec " ++ int_to_str e.month_count ++ " passages."

/-- `YearSummaryEvent` from `compute.py`. -/
structure YearSummaryEvent where
  year : Nat
  year_count : Int
  year_rank : Nat
deriving DecidableEq

def YearSummaryEvent.default_score (_ : YearSummaryEvent) : Int := 96

def YearSummaryEvent.default_message (e : YearSummaryEvent) : String :=
  nat_to_str e.year ++ " : " ++ _build_french_ordinal e.year_rank ++
    "meilleure année de l\x27histoire avec " ++ int_to_str e.year_count ++ " passages."

/-- `YearTotalEvent` from `compute.py`. -/
structure YearTotalEvent where
  year_total : Int
  day : Date
deriving DecidableEq

def YearTotalEvent.default_score (e : YearTotalEvent) : Int :=
  if e.day.day = 1 then 0
  else if e.day.day ≤ 4 then 40
  else if _number_is_funny e.year_total then 75
  else 50

def YearTotalEvent.default_message (e : YearTotalEvent) : String :=
  int_to_str e.year_total ++ " passages depuis le début de l\x27année."

/-- `MonthTotalEvent` from `compute.py`. -/
structure MonthTotalEvent where
  month_total : Int
  day : Date
deriving DecidableEq

def MonthTotalEvent.default_score (e : MonthTotalEvent) : Int :=
  if e.day.day = 1 then 0
  else if _number_is_funny e.month_total then 75
  else if e.day.day ≤ 4 then 40
  else 50

def MonthTotalEvent.default_message (e : MonthTotalEvent) : String :=
  int_to_str e.month_total ++ " passages depuis le début du mois."

/-- `HistoricalTotalEvent` from `compute.py`. -/
structure HistoricalTotalEvent where
  historical_total : Int
deriving DecidableEq

def HistoricalTotalEvent.default_score (e : HistoricalTotalEvent) : Int :=
  if _number_is_funny e.historical_total then 75
  else 50

def HistoricalTotalEvent.default_message (e : HistoricalTotalEvent) : String :=
  int_to_str e.historical_total ++ " passages depuis l\x27installation du compteur."

/-- The `Event` union from `compute.py`. -/
inductive Event
  | monthRecord (e : MonthRecordEvent)
  | historicalRecord (e : HistoricalRecordEvent)
  | dayRank (e : DayHistoricalRankEvent)
  | monthSummary (e : MonthSummaryEvent)
  | yearSummary (e : YearSummaryEvent)
  | yearTotal (e : YearTotalEvent)
  | monthTotal (e : MonthTotalEvent)
  | historicalTotal (e : HistoricalTotalEvent)
deriving DecidableEq

/-- `_score_event` from `compute.py` (`event.default_score()` dispatch). -/
def _score_event : Event → Int
  | .monthRecord e => e.default_score
  | .historicalRecord e => e.default_score
  | .dayRank e => e.default_score
  | .monthSummary e => e.default_score
  | .yearSummary e => e.default_score
  | .yearTotal e => e.default_score
  | .monthTotal e => e.default_score
  | .historicalTotal e => e.default_score

/-- `_event_to_fact` from `compute.py` (`event.default_message()` dispatch). -/
def _event_to_fact : Event → String
  | .monthRecord e => e.default_message
  | .historicalRecord e => e.default_message
  | .dayRank e => e.default_message
  | .monthSummary e => e.default_message
  | .yearSummary e => e.default_message
  | .yearTotal e => e.default_message
  | .monthTotal e => e.default_message
  | .historicalTotal e => e.default_message

/-- `_extract_month_event` from `compute.py`. -/
def _extract_month_event (day : Date) (count_history : CountHistory) :
    Except String MonthSummaryEvent := do
  let month_to_count := _get_month_to_count count_history
  let mc ← dictGetE month_to_count (_get_month day)
  let rank ← _optimistic_rank mc (dictValues month_to_count)
  .ok ⟨_get_month day, mc, rank⟩

/-- `_extract_year_event` from `compute.py`. -/
def _extract_year_event (day : Date) (count_history : CountHistory) :
    Except String YearSummaryEvent := do
  let year_to_count := _get_year_to_count count_history
  let yc ← dictGetE year_to_count day.year
  let rank ← _optimistic_rank yc (dictValues year_to_count)
  .ok ⟨day.year, yc, rank⟩

/-- `_historical_record` event computer. -/
def _historical_record (day : Date) (count_history : CountHistory) :
    Except String (Option Event) := do
  let b ← _day_is_absolute_maximum day count_history
  .ok (if b then some (.historicalRecord ⟨⟩) else none)

/-- `_get_day_rank` from `compute.py`. -/
def _get_day_rank (day : Date) (count_history : CountHistory) :
    Except String DayHistoricalRankEvent := do
  let historical_rank ← _day_rank day count_history
  mkDayHistoricalRankEvent historical_rank count_history.daily_counts.length

/-- `_get_month_summary` event computer. -/
def _get_month_summary (day : Date) (count_history : CountHistory) :
    Except String (Option Event) :=
  if _day_is_last_day_of_month day then do
    let e ← _extract_month_event day count_history
    .ok (some (.monthSummary e))
  else .ok none

/-- `_get_year_summary` event computer. -/
def _get_year_summary (day : Date) (count_history : CountHistory) :
    Except String (Option Event) :=
  if _day_is_last_day_of_year day then do
    let e ← _extract_year_event day count_history
    .ok (some (.yearSummary e))
  else .ok none

/-- `_extract_total_count_event` event computer. -/
def _extract_total_count_event (_ : Date) (count_history : CountHistory) :
    Except String (Option Event) :=
  .ok (some (.historicalTotal ⟨(dictValues (day_to_count count_history)).sum⟩))

/-- `_extract_month_total_count_event` event computer. -/
def _extract_month_total_count_event (day : Date) (count_history : CountHistory) :
    Except String (Option Event) := do
  let mc ← dictGetE (_get_month_to_count count_history) (_get_month day)
  .ok (some (.monthTotal ⟨mc, day⟩))

/-- `_extract_year_total_count_event` event computer. -/
def _extract_year_total_count_event (day : Date) (count_history : CountHistory) :
    Except String (Option Event) := do
  let yc ← dictGetE (_get_year_to_count count_history) day.year
  .ok (some (.yearTotal ⟨yc, day⟩))

/-- `_EVENT_COMPUTERS` from `compute.py` (in source order). -/
def _EVENT_COMPUTERS : List (Date → CountHistory → Except String (Option Event)) :=
  [_historical_record,
   fun day ch => (fun e => some (.dayRank e)) <$> _get_day_rank day ch,
   _get_month_summary,
   _get_year_summary,
   _extract_total_count_event,
   _extract_month_total_count_event,
   _extract_year_total_count_event]

/-- `_extract_counting_events` from `compute.py` (dataclass instances are
always truthy, so `if event` filters exactly the `None`s). -/
def _extract_counting_events (day : Date) (count_history : CountHistory)
    (event_computers : List (Date → CountHistory → Except String (Option Event))) :
    Except String (List Event) := do
  let potential_events ← event_computers.mapM (fun f => f day count_history)
  .ok (potential_events.filterMap id)

/-- `_randomly_choose_index_among_max_values` from `compute.py`;
`random.choice` draws position `r % len(candidates)` of the candidate
list under the random source `r`. -/
def _randomly_choose_index_among_max_values (r : Nat) (values : List Int) :
    Except String Nat :=
  match values with
  | [] => .error "Need at least one value to get biggest one."
  | v :: vs =>
    let max_value := vs.foldl max v
    let candidates :=
      (List.range (v :: vs).length).filter (fun i => (v :: vs).getD i 0 = max_value)
    .ok (candidates.getD (r % candidates.length) 0)

/-- `_elect_event` from `compute.py`. -/
def _elect_event (r : Nat) (events : List Event) : Except String Event :=
  match events with
  | [] => .error "Need at least one event to choose one."
  | _ => do
    let event_scores := events.map _score_event
    let i ← _randomly_choose_index_among_max_values r event_scores
    .ok (events.getD i (.historicalRecord ⟨⟩))

/-- `_remove_posterior_days` from `compute.py` (reconstruction re-runs the
continuity check of `CountHistory.__post_init__`). -/
def _remove_posterior_days (day : Date) (count_history : CountHistory) :
    Except String CountHistory :=
  mkCountHistory (count_history.daily_counts.filter (fun cnt => dateLe cnt.date day))

/-- `_compute_most_interesting_fact` from `compute.py`. -/
def _compute_most_interesting_fact (r : Nat) (day : Date) (count_history : CountHistory) :
    Except String Event := do
  let truncated ← _remove_posterior_days day count_history
  let events ← _extract_counting_events day truncated _EVENT_COMPUTERS
  _elect_event r events

/-- `date_to_dmy` from `utils.py` (`strftime %d/%m/%Y`). -/
def date_to_dmy (d : Date) : String :=
  ⟨padChars 2 d.day ++ '/' :: padChars 2 d.month ++ '/' :: padChars 4 d.year⟩

/-- `_compute_day_expression` from `compute.py`. -/
def _compute_day_expression (day publish_date : Date) : String :=
  if day = publish_date then "Aujourd\x27hui"
  else if subOneDay publish_date = day then "Hier"
  else "Le " ++ date_to_dmy day

/-- `_compute_first_half_of_tweet` from `compute.py`. -/
def _compute_first_half_of_tweet (day : Date) (count_history : CountHistory)
    (publish_date : Date) : Except String String := do
  let nb_occurrences_this_day ← _safe_get_count day count_history
  .ok (_compute_day_expression day publish_date ++ ", il y a eu " ++
    int_to_str nb_occurrences_this_day ++ " cyclistes.")

/-- `build_tweet` from `compute.py`. -/
def build_tweet (r : Nat) (day : Date) (count_history : CountHistory)
    (publish_date : Date) (hashtag : Option Hashtag) : Except String Tweet := do
  let event ← _compute_most_interesting_fact r day count_history
  let first_half ← _compute_first_half_of_tweet day count_history publish_date
  let tweet_lines :=
    [first_half, _event_to_fact event] ++
      (match hashtag with | some h => [h.content] | none => [])
  mkTweet (String.intercalate "\n" tweet_lines)

/-- Python `str.split(sep)` on character lists (returns `n + 1` parts for
`n` separators; `[['']]`-like behaviour on the empty string). -/
def splitChar (c : Char) : List Char → List (List Char)
  | [] => [[]]
  | x :: xs =>
    match splitChar c xs with
    | [] => [[]]
    | h :: t => if x = c then [] :: h :: t else (x :: h) :: t

/-- Python `sep.join(parts)` on character lists. -/
def joinChar (c : Char) : List (List Char) → List Char
  | [] => []
  | [p] => p
  | p :: q :: ps => p ++ c :: joinChar c (q :: ps)

/-- Python `int(s)` for a string of decimal digits (as produced by the
serializers; `None` models `ValueError`). -/
def parseNatChars (l : List Char) : Option Nat :=
  if l ≠ [] ∧ l.all Char.isDigit then
    some (l.foldl (fun acc c => acc * 10 + (c.toNat - 48)) 0)
  else none

/-- Python `int(s)` allowing a leading minus sign. -/
def parseIntChars (l : List Char) : Option Int :=
  if l.head? = some '-' then (parseNatChars l.tail).map (fun n => -(n : Int))
  else (parseNatChars l).map (fun n => (n : Int))

/-- `date_to_ymd` from `utils.py` (`strftime %Y/%m/%d`). -/
def date_to_ymd (d : Date) : String :=
  ⟨padChars 4 d.year ++ '/' :: padChars 2 d.month ++ '/' :: padChars 2 d.day⟩

/-- `parse_ymd` from `utils.py` (`strptime %Y/%m/%d`): three `/`-separated
decimal fields denoting a constructible `datetime.date`. -/
def parse_ymd_chars (l : List Char) : Except String Date :=
  match splitChar '/' l with
  | [ys, ms, ds] =>
    match parseNatChars ys, parseNatChars ms, parseNatChars ds with
    | some y, some m, some d =>
      if ValidDate ⟨y, m, d⟩ then .ok ⟨y, m, d⟩
      else .error "time data does not match format"
    | _, _, _ => .error "invalid literal for int"
  | _ => .error "time data does not match format"

/-- `parse_ymd` from `utils.py` on a `String`. -/
def parse_ymd (s : String) : Except String Date := parse_ymd_chars s.data

/-- `DayCount.to_csv` from `models.py`. -/
def DayCount.to_csv (dc : DayCount) : String :=
  ⟨(date_to_ymd dc.date).data ++ ',' :: intChars dc.count⟩

/-- `DayCount.from_csv` from `models.py`, on a character list: exactly two
comma-separated fields, a date and an integer. -/
def DayCount.from_csv_chars (l : List Char) : Except String DayCount :=
  match splitChar ',' l with
  | [date_str, count_str] =>
    match parse_ymd_chars date_str, parseIntChars count_str with
    | .ok d, some c => .ok ⟨d, c⟩
    | .error e, _ => .error e
    | _, none => .error "invalid literal for int"
  | _ => .error "values to unpack"

/-- `DayCount.from_csv` from `models.py`. -/
def DayCount.from_csv (s : String) : Except String DayCount :=
  DayCount.from_csv_chars s.data

/-- `CountHistory.to_csv` from `models.py`. -/
def CountHistory.to_csv (ch : CountHistory) : String :=
  ⟨joinChar '\n' (ch.daily_counts.map (fun c => (DayCount.to_csv c).data))⟩

/-- `CountHistory.from_csv` from `models.py` (re-validates continuity). -/
def CountHistory.from_csv (s : String) : Except String CountHistory := do
  let dcs ← (splitChar '\n' s.data).mapM DayCount.from_csv_chars
  mkCountHistory dcs

/-- The JSON object `{'date': ..., 'count': ...}` of `DayCount.to_json`. -/
structure DayCountJson where
  date : String
  count : Int
deriving DecidableEq

/-- `DayCount.to_json` from `models.py`. -/
def DayCount.to_json (dc : DayCount) : DayCountJson :=
  ⟨date_to_ymd dc.date, dc.count⟩

/-- `DayCount.from_json` from `models.py`. -/
def DayCount.from_json (j : DayCountJson) : Except String DayCount := do
  let d ← parse_ymd j.date
  .ok ⟨d, j.count⟩

/-- `CountHistory.to_json` from `models.py` (the `daily_counts` list of
the produced JSON object). -/
def CountHistory.to_json (ch : CountHistory) : List DayCountJson :=
  ch.daily_counts.map DayCount.to_json

/-- `CountHistory.from_json` from `models.py`. -/
def CountHistory.from_json (l : List DayCountJson) : Except String CountHistory := do
  let dcs ← l.mapM DayCount.from_json
  mkCountHistory dcs

/-! ### Spec-side definitions (phrased from the specification's words,
for comparison against the embedded source) -/

/-- The score table the specification claims for both `YearTotalEvent`
and `MonthTotalEvent`: 0 on day 1; else 0.4 when the day-of-month is at
most 4; else 0.75 when the total looks funny; else 0.5 (in hundredths). -/
def claimedTotalEventScore (total : Int) (day : Date) : Int :=
  if day.day = 1 then 0
  else if day.day ≤ 4 then 40
  else if _number_is_funny total then 75
  else 50

/-- The indices of the maximum-scoring entries of a score list, phrased
as the specification does: positions whose score is at least every
score in the list. -/
def tiedIndices (scores : List Int) : List Nat :=
  (List.range scores.length).filter
    (fun i => scores.all (fun s => s ≤ scores.getD i 0))

/-- The event list used to instantiate the selection theorem. -/
def electWitnessEvents : List Event :=
  [.historicalTotal ⟨1000⟩, .historicalTotal ⟨31⟩]

/-- The daily counts used to instantiate the round-trip theorem. -/
def csvWitnessList : List DayCount :=
  [⟨⟨2020, 1, 8⟩, 8812⟩, ⟨⟨2020, 1, 9⟩, 100⟩]

/-- The specification's looks-funny characterization of a positive
integer: all decimal digits identical with at least 3 digits, or an
exact multiple of the power of ten matching its own digit count. -/
def specLooksFunny (n : Nat) : Prop :=
  (3 ≤ (natChars n).length ∧ ∃ c, natChars n = List.replicate (natChars n).length c) ∨
    (10 : Nat) ^ ((natChars n).length - 1) ∣ n

end Rivoli

namespace Rivoli

/-! ### Helper lemmas -/

theorem subOneDay_addOneDay {d : Date} (h : ValidDate d) :
    subOneDay (addOneDay d) = d := by
  obtain ⟨y, m, dd⟩ := d
  obtain ⟨_, _, hm1, hm12, hd1, hd2⟩ := h
  simp only [ValidDate] at *
  unfold addOneDay subOneDay
  by_cases hlt : dd < daysInMonth y m
  · simp only at hlt ⊢
    simp only [if_pos hlt]
    have h1 : 1 < dd + 1 := by omega
    simp only [if_pos h1, Date.mk.injEq, true_and]
    omega
  · simp only at hlt hd2 ⊢
    simp only [if_neg hlt]
    have hdim : dd = daysInMonth y m := by omega
    by_cases hm : m < 12
    · simp only [if_pos hm]
      have h1 : ¬ (1 < (1 : Nat)) := by omega
      have h2 : 1 < m + 1 := by omega
      simp only [if_neg h1, if_pos h2, Nat.add_sub_cancel, Date.mk.injEq, true_and]
      omega
    · simp only [if_neg hm]
      have hm' : m = 12 := by omega
      have h1 : ¬ (1 < (1 : Nat)) := by omega
      have hd31 : dd = 31 := by
        rw [hdim, hm']
        unfold daysInMonth
        norm_num
      simp only [if_neg h1]
      have e1 : y + 1 - 1 = y := by omega
      have e2 : (12 : Nat) = m := by omega
      have e3 : (31 : Nat) = dd := by omega
      rw [e1, e2, e3]

theorem natDigitsAux_eq_digits (fuel n : Nat) (h : n ≤ fuel) :
    natDigitsAux fuel n = Nat.digits 10 n := by
  induction fuel generalizing n with
  | zero =>
    have : n = 0 := by omega
    subst this
    simp [natDigitsAux]
  | succ fuel ih =>
    unfold natDigitsAux
    by_cases hn : n = 0
    · subst hn; simp
    · simp only [if_neg hn]
      rw [ih (n / 10) (by omega), Nat.digits_def' (by norm_num : 1 < 10) (Nat.pos_of_ne_zero hn)]

theorem natDigits_eq_digits (n : Nat) : natDigits n = Nat.digits 10 n :=
  natDigitsAux_eq_digits n n le_rfl

theorem intChars_natCast (n : Nat) : intChars (n : Int) = natChars n := by
  unfold intChars
  have : ¬ ((n : Int) < 0) := not_lt.mpr (Int.natCast_nonneg n)
  simp [this]

theorem natChars_ne_nil (n : Nat) : natChars n ≠ [] := by
  unfold natChars
  by_cases hn : n = 0
  · simp [hn]
  · simp only [if_neg hn]
    intro hcon
    rw [natDigits_eq_digits] at hcon
    have h2 : Nat.digits 10 n = [] := by simpa using hcon
    exact hn (Nat.digits_eq_nil_iff_eq_zero.mp h2)

theorem dedup_length_eq_one_iff {α : Type} [DecidableEq α] {l : List α} (h : l ≠ []) :
    l.dedup.length = 1 ↔ ∃ c, l = List.replicate l.length c := by
  constructor
  · intro h1
    obtain ⟨a, ha⟩ := List.length_eq_one.mp h1
    refine ⟨a, List.eq_replicate_iff.mpr ⟨rfl, ?_⟩⟩
    intro b hb
    have hmem : b ∈ l.dedup := List.mem_dedup.mpr hb
    rw [ha] at hmem
    simpa using hmem
  · rintro ⟨c, hc⟩
    have hlen : l.length ≠ 0 := fun hl => h (List.eq_nil_of_length_eq_zero hl)
    have hmem : ∀ b ∈ l.dedup, b = c := by
      intro b hb
      have := List.mem_dedup.mp hb
      rw [hc] at this
      exact List.eq_of_mem_replicate this
    have hcmem : c ∈ l.dedup := by
      refine List.mem_dedup.mpr ?_
      rw [hc]
      exact List.mem_replicate.mpr ⟨hlen, rfl⟩
    have hnd := l.nodup_dedup
    match hd : l.dedup with
    | [] => rw [hd] at hcmem; cases hcmem
    | [x] => rfl
    | x :: y :: t =>
      rw [hd] at hmem hnd
      have hx : x = c := hmem x (by simp)
      have hy : y = c := hmem y (by simp)
      rw [List.nodup_cons] at hnd
      exact absurd (by simp [hx, hy]) hnd.1

/-- The two-branch boolean of `_number_is_funny` as a disjunction. -/
theorem if_if_true_false_eq_true {P Q : Prop} [Decidable P] [Decidable Q] :
    ((if P then true else if Q then true else false) = true) ↔ (P ∨ Q) := by
  split_ifs with h1 h2 <;> simp_all

theorem findRank_eq_none_iff (t : Int) (l : List Int) :
    findRank t l = none ↔ t ∉ l := by
  induction l with
  | nil => simp [findRank]
  | cons v vs ih =>
    unfold findRank
    by_cases h : v = t
    · simp [h]
    · rw [if_neg h]
      simp only [Option.map_eq_none', ih, List.mem_cons]
      constructor
      · intro hn hmem
        cases hmem with
        | inl he => exact h he.symm
        | inr hm => exact hn hm
      · intro hn hm
        exact hn (Or.inr hm)

theorem findRank_sound (t : Int) : ∀ (l : List Int) (r : Nat),
    findRank t l = some r →
      r < l.length ∧ l.getD r 0 = t ∧ ∀ j < r, l.getD j 0 ≠ t := by
  intro l
  induction l with
  | nil => intro r h; cases h
  | cons v vs ih =>
    intro r h
    unfold findRank at h
    by_cases hv : v = t
    · rw [if_pos hv] at h
      cases h
      exact ⟨by simp, by simpa using hv, fun j hj => by omega⟩
    · rw [if_neg hv] at h
      cases hfr : findRank t vs with
      | none => rw [hfr] at h; cases h
      | some ru =>
        rw [hfr] at h
        simp only [Option.map_some'] at h
        cases h
        obtain ⟨h1, h2, h3⟩ := ih ru hfr
        refine ⟨by simpa using h1, by simpa using h2, ?_⟩
        intro j hj
        cases j with
        | zero => simpa using hv
        | succ ju =>
          simpa using h3 ju (by omega)

theorem findRank_isSome_of_mem {t : Int} {l : List Int} (h : t ∈ l) :
    ∃ r, findRank t l = some r := by
  cases hfr : findRank t l with
  | none => exact absurd h ((findRank_eq_none_iff t l).mp hfr)
  | some r => exact ⟨r, rfl⟩

theorem foldl_max_spec (vs : List Int) : ∀ v : Int,
    vs.foldl max v ∈ v :: vs ∧ ∀ x ∈ v :: vs, x ≤ vs.foldl max v := by
  induction vs with
  | nil =>
    intro v
    refine ⟨by simp, ?_⟩
    intro x hx
    simp only [List.foldl_nil]
    simp at hx
    omega
  | cons w ws ih =>
    intro v
    constructor
    · have h := (ih (max v w)).1
      simp only [List.foldl_cons]
      rcases List.mem_cons.mp h with h1 | h1
      · rcases max_choice v w with hc | hc
        · rw [h1, hc]; simp
        · rw [h1, hc]; simp
      · simp [List.mem_cons]
        right; right; exact h1
    · intro x hx
      have hle := (ih (max v w)).2
      simp only [List.foldl_cons]
      rcases List.mem_cons.mp hx with rfl | hx2
      · exact le_trans (le_max_left x w) (hle (max x w) (by simp))
      · rcases List.mem_cons.mp hx2 with rfl | h2
        · exact le_trans (le_max_right v x) (hle (max v x) (by simp))
        · exact hle x (by simp [h2])

theorem mem_tiedIndices (scores : List Int) (i : Nat) :
    i ∈ tiedIndices scores ↔
      i < scores.length ∧ ∀ s ∈ scores, s ≤ scores.getD i 0 := by
  unfold tiedIndices
  simp [List.mem_filter, List.mem_range, List.all_eq_true]

theorem getD_mem_of_lt {α : Type} {l : List α} {n : Nat} (d : α) (h : n < l.length) :
    l.getD n d ∈ l := by
  rw [List.getD_eq_getElem _ _ h]
  exact List.getElem_mem h

theorem candidates_eq_tiedIndices (v : Int) (vs : List Int) :
    (List.range (v :: vs).length).filter
        (fun i => (v :: vs).getD i 0 = vs.foldl max v) =
      tiedIndices (v :: vs) := by
  unfold tiedIndices
  apply List.filter_congr
  intro i hi
  have hi' : i < (v :: vs).length := List.mem_range.mp hi
  rw [Bool.eq_iff_iff]
  simp only [decide_eq_true_eq, List.all_eq_true, decide_eq_true_eq]
  constructor
  · intro heq s hs
    rw [heq]
    exact (foldl_max_spec vs v).2 s hs
  · intro hall
    have h1 : vs.foldl max v ≤ (v :: vs).getD i 0 :=
      hall _ ((foldl_max_spec vs v).1)
    have h2 : (v :: vs).getD i 0 ≤ vs.foldl max v :=
      (foldl_max_spec vs v).2 _ (getD_mem_of_lt 0 hi')
    omega

theorem tiedIndices_ne_nil (v : Int) (vs : List Int) :
    tiedIndices (v :: vs) ≠ [] := by
  have hmem : vs.foldl max v ∈ v :: vs := (foldl_max_spec vs v).1
  obtain ⟨i, hi, hgi⟩ := List.mem_iff_getElem.mp hmem
  have : i ∈ tiedIndices (v :: vs) := by
    rw [mem_tiedIndices]
    refine ⟨hi, ?_⟩
    intro s hs
    rw [List.getD_eq_getElem _ _ hi, hgi]
    exact (foldl_max_spec vs v).2 s hs
  exact List.ne_nil_of_mem this

theorem tiedIndices_nodup (scores : List Int) : (tiedIndices scores).Nodup :=
  (List.nodup_range _).filter _

theorem getD_map_score (events : List Event) (j : Nat) (h : j < events.length) :
    (events.map _score_event).getD j 0 =
      _score_event (events.getD j (.historicalRecord ⟨⟩)) := by
  rw [List.getD_eq_getElem _ _ (by simpa using h), List.getD_eq_getElem _ _ h,
    List.getElem_map]

theorem digitChar_toNat {d : Nat} (h : d < 10) : (digitChar d).toNat = 48 + d := by
  interval_cases d <;> decide

theorem digitChar_isDigit {d : Nat} (h : d < 10) : (digitChar d).isDigit = true := by
  interval_cases d <;> decide

theorem natChars_all_digits (n : Nat) : ∀ c ∈ natChars n, c.isDigit = true := by
  intro c hc
  unfold natChars at hc
  by_cases hn : n = 0
  · rw [if_pos hn] at hc
    simp at hc
    rw [hc]
    decide
  · rw [if_neg hn] at hc
    obtain ⟨d, hd, hdc⟩ := List.mem_map.mp hc
    have hd10 : d < 10 := by
      rw [natDigits_eq_digits] at hd
      exact Nat.digits_lt_base (by norm_num) (List.mem_reverse.mp hd)
    rw [← hdc]
    exact digitChar_isDigit hd10

/-- The folding step of `parseNatChars`. -/
theorem parse_fold_natChars (n : Nat) :
    (natChars n).foldl (fun acc c => acc * 10 + (c.toNat - 48)) 0 = n := by
  unfold natChars
  by_cases hn : n = 0
  · rw [if_pos hn, hn]
    decide
  · rw [if_neg hn]
    have hlt : ∀ d ∈ natDigits n, d < 10 := by
      intro d hd
      rw [natDigits_eq_digits] at hd
      exact Nat.digits_lt_base (by norm_num) hd
    have hmap : ∀ (ds : List Nat) (a : Nat), (∀ d ∈ ds, d < 10) →
        (ds.map digitChar).foldl (fun acc c => acc * 10 + (c.toNat - 48)) a =
          ds.foldl (fun acc d => acc * 10 + d) a := by
      intro ds
      induction ds with
      | nil => intro a _; rfl
      | cons d ds ih =>
        intro a hds
        simp only [List.map_cons, List.foldl_cons]
        rw [digitChar_toNat (hds d (by simp)), Nat.add_sub_cancel_left]
        exact ih _ (fun x hx => hds x (by simp [hx]))
    rw [hmap _ _ (fun d hd => hlt d (List.mem_reverse.mp hd))]
    rw [List.foldl_reverse]
    have hfold : ∀ ds : List Nat,
        ds.foldr (fun x acc => acc * 10 + x) 0 = Nat.ofDigits 10 ds := by
      intro ds
      induction ds with
      | nil => simp [Nat.ofDigits]
      | cons d ds ih =>
        simp only [List.foldr_cons, ih, Nat.ofDigits_cons]
        ring
    rw [hfold, natDigits_eq_digits, Nat.ofDigits_digits]

theorem parseNat_natChars (n : Nat) : parseNatChars (natChars n) = some n := by
  unfold parseNatChars
  rw [if_pos ⟨natChars_ne_nil n, List.all_eq_true.mpr
    (fun c hc => natChars_all_digits n c hc)⟩]
  rw [parse_fold_natChars]

theorem padChars_all_digits (w n : Nat) : ∀ c ∈ padChars w n, c.isDigit = true := by
  intro c hc
  unfold padChars at hc
  rcases List.mem_append.mp hc with h | h
  · rw [List.eq_of_mem_replicate h]
    decide
  · exact natChars_all_digits n c h

theorem padChars_ne_nil (w n : Nat) : padChars w n ≠ [] := by
  unfold padChars
  intro hcon
  exact natChars_ne_nil n (List.append_eq_nil.mp hcon).2

theorem parseNat_padChars (w n : Nat) : parseNatChars (padChars w n) = some n := by
  unfold parseNatChars
  rw [if_pos ⟨padChars_ne_nil w n, List.all_eq_true.mpr
    (fun c hc => padChars_all_digits w n c hc)⟩]
  unfold padChars
  rw [List.foldl_append]
  have hz : ∀ k : Nat, (List.replicate k '0').foldl
      (fun acc c => acc * 10 + (c.toNat - 48)) 0 = 0 := by
    intro k
    induction k with
    | zero => rfl
    | succ k ih => simpa [List.replicate_succ] using ih
  rw [hz, parse_fold_natChars]

theorem intChars_head_not_minus_of_nonneg (i : Int) (h : ¬ i < 0) :
    (intChars i).head? ≠ some '-' := by
  unfold intChars
  rw [if_neg h]
  intro hcon
  have hmem : '-' ∈ natChars i.natAbs := List.mem_of_mem_head? hcon
  have := natChars_all_digits i.natAbs '-' hmem
  simp at this

theorem parseInt_intChars (i : Int) : parseIntChars (intChars i) = some i := by
  unfold parseIntChars
  by_cases hi : i < 0
  · have hhd : (intChars i).head? = some '-' := by
      unfold intChars
      rw [if_pos hi]
      rfl
    rw [if_pos hhd]
    have htl : (intChars i).tail = natChars i.natAbs := by
      unfold intChars
      rw [if_pos hi]
      rfl
    rw [htl, parseNat_natChars]
    show some (-(i.natAbs : Int)) = some i
    congr 1
    omega
  · rw [if_neg (intChars_head_not_minus_of_nonneg i hi)]
    have heq : intChars i = natChars i.natAbs := by
      unfold intChars
      rw [if_neg hi]
    rw [heq, parseNat_natChars]
    show some ((i.natAbs : Int)) = some i
    congr 1
    omega

theorem splitChar_cons (c x : Char) (xs : List Char) :
    splitChar c (x :: xs) =
      match splitChar c xs with
      | [] => [[]]
      | h :: t => if x = c then [] :: h :: t else (x :: h) :: t := rfl

theorem splitChar_ne_nil (c : Char) : ∀ l : List Char, splitChar c l ≠ [] := by
  intro l
  induction l with
  | nil => simp [splitChar]
  | cons x xs ih =>
    rw [splitChar_cons]
    cases h2 : splitChar c xs with
    | nil => simp
    | cons a b => by_cases hx : x = c <;> simp [hx]

theorem splitChar_no_sep (c : Char) : ∀ l : List Char, c ∉ l →
    splitChar c l = [l] := by
  intro l
  induction l with
  | nil => intro _; rfl
  | cons x xs ih =>
    intro h
    have hx : x ≠ c := fun hc => h (by simp [hc])
    have hxs : c ∉ xs := fun hc => h (by simp [hc])
    rw [splitChar_cons, ih hxs]
    simp [hx]

theorem splitChar_append_cons (c : Char) : ∀ (xs rest : List Char), c ∉ xs →
    splitChar c (xs ++ c :: rest) = xs :: splitChar c rest := by
  intro xs
  induction xs with
  | nil =>
    intro rest _
    show splitChar c (c :: rest) = [] :: splitChar c rest
    rw [splitChar_cons]
    obtain ⟨h, t, hs⟩ := List.exists_cons_of_ne_nil (splitChar_ne_nil c rest)
    rw [hs]
    simp
  | cons x xs ih =>
    intro rest h
    have hx : x ≠ c := fun hc => h (by simp [hc])
    have hxs : c ∉ xs := fun hc => h (by simp [hc])
    show splitChar c (x :: (xs ++ c :: rest)) = (x :: xs) :: splitChar c rest
    rw [splitChar_cons, ih rest hxs]
    simp [hx]

theorem splitChar_joinChar (c : Char) : ∀ parts : List (List Char),
    parts ≠ [] → (∀ p ∈ parts, c ∉ p) →
    splitChar c (joinChar c parts) = parts := by
  intro parts
  induction parts with
  | nil => intro h _; exact absurd rfl h
  | cons p ps ih =>
    intro _ hps
    cases ps with
    | nil =>
      show splitChar c p = [p]
      exact splitChar_no_sep c p (hps p (by simp))
    | cons q qs =>
      show splitChar c (p ++ c :: joinChar c (q :: qs)) = p :: (q :: qs)
      rw [splitChar_append_cons c p _ (hps p (by simp))]
      rw [ih (by simp) (fun r hr => hps r (by simp [hr]))]

theorem date_to_ymd_data (d : Date) :
    (date_to_ymd d).data =
      joinChar '/' [padChars 4 d.year, padChars 2 d.month, padChars 2 d.day] := by
  show padChars 4 d.year ++ '/' :: padChars 2 d.month ++ '/' :: padChars 2 d.day = _
  simp [joinChar]

theorem slash_not_mem_padChars (w n : Nat) : '/' ∉ padChars w n := by
  intro h
  have := padChars_all_digits w n '/' h
  simp at this

theorem parse_ymd_date_to_ymd {d : Date} (h : ValidDate d) :
    parse_ymd (date_to_ymd d) = .ok d := by
  unfold parse_ymd
  rw [date_to_ymd_data]
  unfold parse_ymd_chars
  rw [splitChar_joinChar '/' _ (by simp) (by
    intro p hp
    simp only [List.mem_cons, List.not_mem_nil, or_false] at hp
    rcases hp with rfl | rfl | rfl
    · exact slash_not_mem_padChars 4 d.year
    · exact slash_not_mem_padChars 2 d.month
    · exact slash_not_mem_padChars 2 d.day)]
  simp only [parseNat_padChars]
  have h2 : ValidDate ⟨d.year, d.month, d.day⟩ := h
  rw [if_pos h2]

theorem date_chars_spec (d : Date) :
    ∀ c ∈ (date_to_ymd d).data, c.isDigit = true ∨ c = '/' := by
  have hdata : (date_to_ymd d).data =
      padChars 4 d.year ++ '/' :: padChars 2 d.month ++ '/' :: padChars 2 d.day := rfl
  rw [hdata]
  refine List.forall_mem_append.mpr ⟨List.forall_mem_append.mpr ⟨?_, ?_⟩, ?_⟩
  · intro c hc
    exact Or.inl (padChars_all_digits _ _ _ hc)
  · refine List.forall_mem_cons.mpr ⟨Or.inr rfl, ?_⟩
    intro c hc
    exact Or.inl (padChars_all_digits _ _ _ hc)
  · refine List.forall_mem_cons.mpr ⟨Or.inr rfl, ?_⟩
    intro c hc
    exact Or.inl (padChars_all_digits _ _ _ hc)

theorem mem_date_to_ymd_chars {c : Char} {d : Date} (h : c ∈ (date_to_ymd d).data) :
    c.isDigit = true ∨ c = '/' :=
  date_chars_spec d c h

theorem mem_intChars {c : Char} {i : Int} (h : c ∈ intChars i) :
    c.isDigit = true ∨ c = '-' := by
  unfold intChars at h
  by_cases hi : i < 0
  · rw [if_pos hi] at h
    rcases List.mem_cons.mp h with h | h
    · exact Or.inr h
    · exact Or.inl (natChars_all_digits _ _ h)
  · rw [if_neg hi] at h
    exact Or.inl (natChars_all_digits _ _ h)

theorem comma_not_mem_date_chars (d : Date) : ',' ∉ (date_to_ymd d).data := by
  intro h
  rcases mem_date_to_ymd_chars h with h | h <;> simp at h

theorem comma_not_mem_intChars (i : Int) : ',' ∉ intChars i := by
  intro h
  rcases mem_intChars h with h | h <;> simp at h

theorem newline_not_mem_line (dc : DayCount) : '\n' ∉ (DayCount.to_csv dc).data := by
  have hdata : (DayCount.to_csv dc).data =
      (date_to_ymd dc.date).data ++ ',' :: intChars dc.count := rfl
  rw [hdata]
  simp only [List.mem_append, List.mem_cons]
  rintro (h | h | h)
  · rcases mem_date_to_ymd_chars h with h | h <;> simp at h
  · simp at h
  · rcases mem_intChars h with h | h <;> simp at h

theorem from_csv_line {dc : DayCount} (h : ValidDate dc.date) :
    DayCount.from_csv_chars ((DayCount.to_csv dc).data) = .ok dc := by
  have hdata : (DayCount.to_csv dc).data =
      (date_to_ymd dc.date).data ++ ',' :: intChars dc.count := rfl
  rw [hdata]
  unfold DayCount.from_csv_chars
  rw [splitChar_append_cons ',' _ _ (comma_not_mem_date_chars dc.date),
    splitChar_no_sep ',' _ (comma_not_mem_intChars dc.count)]
  have hdate : parse_ymd_chars (date_to_ymd dc.date).data = .ok dc.date :=
    parse_ymd_date_to_ymd h
  simp only [hdate, parseInt_intChars]

theorem mapM_from_csv_ok : ∀ l : List DayCount, (∀ dc ∈ l, ValidDate dc.date) →
    (l.map (fun dc => (DayCount.to_csv dc).data)).mapM DayCount.from_csv_chars =
      .ok l := by
  intro l
  induction l with
  | nil => intro _; rfl
  | cons dc rest ih =>
    intro h
    rw [List.map_cons, List.mapM_cons, from_csv_line (h dc (by simp)),
      ih (fun x hx => h x (by simp [hx]))]
    rfl

theorem from_json_to_json {dc : DayCount} (h : ValidDate dc.date) :
    DayCount.from_json (DayCount.to_json dc) = .ok dc := by
  unfold DayCount.from_json DayCount.to_json
  rw [parse_ymd_date_to_ymd h]
  rfl

theorem mapM_from_json_ok : ∀ l : List DayCount, (∀ dc ∈ l, ValidDate dc.date) →
    (l.map DayCount.to_json).mapM DayCount.from_json = .ok l := by
  intro l
  induction l with
  | nil => intro _; rfl
  | cons dc rest ih =>
    intro h
    rw [List.map_cons, List.mapM_cons, from_json_to_json (h dc (by simp)),
      ih (fun x hx => h x (by simp [hx]))]
    rfl

theorem mkCountHistory_ok {l : List DayCount} {ch : CountHistory}
    (h : mkCountHistory l = .ok ch) :
    _check_continuous_and_increasing l = .ok () ∧ ch = ⟨l⟩ := by
  unfold mkCountHistory at h
  cases hc : _check_continuous_and_increasing l with
  | error e =>
    rw [hc] at h
    cases h
  | ok u =>
    cases u
    rw [hc] at h
    cases h
    exact ⟨rfl, rfl⟩

theorem check_ok_of_chain : ∀ l : List DayCount,
    List.Chain' (fun a b => ValidDate a.date ∧ b.date = addOneDay a.date) l →
    _check_continuous_and_increasing l = .ok () := by
  intro l
  induction l with
  | nil => intro _; rfl
  | cons a t ih =>
    cases t with
    | nil => intro _; rfl
    | cons b t2 =>
      intro h
      rw [List.chain'_cons] at h
      obtain ⟨⟨hv, hab⟩, hrest⟩ := h
      unfold _check_continuous_and_increasing
      have heq : a.date = subOneDay b.date := by
        rw [hab, subOneDay_addOneDay hv]
      rw [if_neg (by simp [heq])]
      exact ih hrest

theorem mkTweet_ok_length {s : String} {t : Tweet} (h : mkTweet s = .ok t) :
    t.content.length ≤ 280 := by
  unfold mkTweet at h
  by_cases hlen : s.length > 280
  · rw [if_pos hlen] at h
    cases h
  · rw [if_neg hlen] at h
    cases h
    exact not_lt.mp hlen

theorem dictOf_length_le {κ ν : Type} [DecidableEq κ] (pairs : List (κ × ν)) :
    (dictOf pairs).length ≤ pairs.length := by
  have hins : ∀ (al : List (κ × ν)) (k : κ) (v : ν),
      (dictInsert al k v).length ≤ al.length + 1 := by
    intro al
    induction al with
    | nil => intro k v; simp [dictInsert]
    | cons p rest ih =>
      intro k v
      obtain ⟨k', v'⟩ := p
      unfold dictInsert
      by_cases hk : k' = k
      · simp [hk]
      · simp only [if_neg hk, List.length_cons]
        have := ih k v
        omega
  have hstep : ∀ (pairs : List (κ × ν)) (acc : List (κ × ν)),
      (pairs.foldl (fun acc p => dictInsert acc p.1 p.2) acc).length ≤
        acc.length + pairs.length := by
    intro pairs
    induction pairs with
    | nil => intro acc; simp
    | cons p rest ih =>
      intro acc
      simp only [List.foldl_cons, List.length_cons]
      have h1 := ih (dictInsert acc p.1 p.2)
      have h2 := hins acc p.1 p.2
      omega
  simpa using hstep pairs []

theorem dictGet_mem_values {κ ν : Type} [DecidableEq κ] :
    ∀ (d : List (κ × ν)) (k : κ) (v : ν),
      dictGet d k = some v → v ∈ dictValues d := by
  intro d
  induction d with
  | nil => intro k v h; cases h
  | cons p rest ih =>
    intro k v h
    obtain ⟨k', v'⟩ := p
    unfold dictGet at h
    by_cases hk : k' = k
    · rw [if_pos hk] at h
      cases h
      simp [dictValues]
    · rw [if_neg hk] at h
      have := ih k v h
      simp only [dictValues, List.map_cons, List.mem_cons]
      right
      simpa [dictValues] using this

theorem elect_event_cons (r : Nat) (e0 : Event) (rest : List Event) :
    _elect_event r (e0 :: rest) =
      .ok ((e0 :: rest).getD
        ((tiedIndices ((e0 :: rest).map _score_event)).getD
          (r % (tiedIndices ((e0 :: rest).map _score_event)).length) 0)
        (.historicalRecord ⟨⟩)) := by
  have hC := candidates_eq_tiedIndices (_score_event e0) (rest.map _score_event)
  rw [show tiedIndices ((e0 :: rest).map _score_event) =
      (List.range (_score_event e0 :: rest.map _score_event).length).filter
        (fun i => (_score_event e0 :: rest.map _score_event).getD i 0 =
          (rest.map _score_event).foldl max (_score_event e0)) from by
    rw [List.map_cons, hC]]
  rfl

/-! ### Claim theorems -/

/-- C1: the first line of `build_tweet` is claimed to read
`"{DayExpression}, il y a eu {count} passages de cyclistes."` with a
space-grouped count (e.g. `8 812`).  On the valid one-day history
2020-01-08 ↦ 8812 published on 2020-01-09 the code instead renders
`"Hier, il y a eu 8812 cyclistes."`: no `passages de` and no grouping. -/
theorem build_tweet_first_line_diverges_from_spec :
    mkCountHistory [⟨⟨2020, 1, 8⟩, 8812⟩] = .ok ⟨[⟨⟨2020, 1, 8⟩, 8812⟩]⟩ ∧
    _compute_first_half_of_tweet ⟨2020, 1, 8⟩ ⟨[⟨⟨2020, 1, 8⟩, 8812⟩]⟩ ⟨2020, 1, 9⟩ =
      .ok "Hier, il y a eu 8812 cyclistes." ∧
    build_tweet 0 ⟨2020, 1, 8⟩ ⟨[⟨⟨2020, 1, 8⟩, 8812⟩]⟩ ⟨2020, 1, 9⟩
        (some ⟨"#CompteurRivoli"⟩) =
      .ok ⟨"Hier, il y a eu 8812 cyclistes.\nRecord historique !\n#CompteurRivoli"⟩ ∧
    "Hier, il y a eu 8812 cyclistes." ≠ "Hier, il y a eu 8 812 passages de cyclistes." :=
  ⟨by decide, by decide, by decide, by decide⟩

/-- C3 counterexample: a `MonthTotalEvent` with total 1000 on day-of-month
3 (so the day is at most 4 and the total looks funny).  The claim's score
table gives 0.4 there, but the code checks the looks-funny rule first and
returns 0.75. -/
theorem monthTotal_score_is_not_claimed_table :
    MonthTotalEvent.default_score ⟨1000, ⟨2020, 10, 3⟩⟩ = 75 ∧
    claimedTotalEventScore 1000 ⟨2020, 10, 3⟩ = 40 ∧
    (75 : Int) ≠ 40 :=
  ⟨by decide, by decide, by decide⟩

/-- C3 amended: `YearTotalEvent.default_score` follows the claimed table
exactly; `MonthTotalEvent.default_score` checks the looks-funny rule
before the day ≤ 4 rule, so it returns 0.75 instead of 0.4 when the
day-of-month is 2..4 and the total looks funny, and the claimed table
everywhere else. -/
theorem totalEvent_scores_vs_claimed_table :
    (∀ e : YearTotalEvent,
      e.default_score = claimedTotalEventScore e.year_total e.day) ∧
    (∀ e : MonthTotalEvent,
      e.default_score =
        if e.day.day ≠ 1 ∧ e.day.day ≤ 4 ∧ _number_is_funny e.month_total then 75
        else claimedTotalEventScore e.month_total e.day) := by
  constructor
  · intro e
    rfl
  · intro e
    unfold MonthTotalEvent.default_score claimedTotalEventScore
    by_cases h1 : e.day.day = 1
    · have : ¬ (e.day.day ≠ 1 ∧ e.day.day ≤ 4 ∧ _number_is_funny e.month_total) := by
        rintro ⟨h2, -, -⟩
        exact h2 h1
      simp only [if_pos h1, if_neg this]
    · by_cases hf : _number_is_funny e.month_total
      · by_cases h4 : e.day.day ≤ 4
        · have h2 : e.day.day ≠ 1 ∧ e.day.day ≤ 4 ∧ _number_is_funny e.month_total :=
            ⟨h1, h4, hf⟩
          simp [if_neg h1, if_pos hf, if_pos h2]
        · have h2 : ¬ (e.day.day ≠ 1 ∧ e.day.day ≤ 4 ∧ _number_is_funny e.month_total) := by
            intro h
            exact h4 h.2.1
          simp [if_neg h1, if_pos hf, if_neg h2, if_neg h4]
      · have h2 : ¬ (e.day.day ≠ 1 ∧ e.day.day ≤ 4 ∧ _number_is_funny e.month_total) := by
          intro h
          exact hf h.2.2
        simp [if_neg h1, if_neg hf, if_neg h2]

/-- C5: `CountHistory` construction rejects a one-day gap and a
duplicated day with the discontinuity error, and accepts unchanged every
list whose consecutive entries are exactly one calendar day apart. -/
theorem count_history_continuity_check :
    mkCountHistory [⟨⟨2020, 1, 1⟩, 1⟩, ⟨⟨2020, 1, 3⟩, 2⟩] =
      .error "Counter not increasing and continuous" ∧
    mkCountHistory [⟨⟨2020, 1, 1⟩, 1⟩, ⟨⟨2020, 1, 1⟩, 2⟩] =
      .error "Counter not increasing and continuous" ∧
    (∀ l : List DayCount,
      List.Chain' (fun a b => ValidDate a.date ∧ b.date = addOneDay a.date) l →
      mkCountHistory l = .ok ⟨l⟩) := by
  refine ⟨by decide, by decide, ?_⟩
  intro l hchain
  unfold mkCountHistory
  rw [check_ok_of_chain l hchain]

/-- C5 witness: a three-day list crossing the 2020 leap-year February. -/
theorem count_history_continuity_check_witness :
    List.Chain' (fun a b => ValidDate a.date ∧ b.date = addOneDay a.date)
      ([⟨⟨2020, 2, 28⟩, 1⟩, ⟨⟨2020, 2, 29⟩, 2⟩, ⟨⟨2020, 3, 1⟩, 3⟩] : List DayCount) ∧
    mkCountHistory [⟨⟨2020, 2, 28⟩, 1⟩, ⟨⟨2020, 2, 29⟩, 2⟩, ⟨⟨2020, 3, 1⟩, 3⟩] =
      .ok ⟨[⟨⟨2020, 2, 28⟩, 1⟩, ⟨⟨2020, 2, 29⟩, 2⟩, ⟨⟨2020, 3, 1⟩, 3⟩]⟩ := by
  have hchain : List.Chain'
      (fun a b => ValidDate a.date ∧ b.date = addOneDay a.date)
      ([⟨⟨2020, 2, 28⟩, 1⟩, ⟨⟨2020, 2, 29⟩, 2⟩, ⟨⟨2020, 3, 1⟩, 3⟩] : List DayCount) :=
    List.chain'_cons.mpr ⟨⟨by decide, by decide⟩,
      List.chain'_cons.mpr ⟨⟨by decide, by decide⟩, List.chain'_singleton _⟩⟩
  exact ⟨hchain, count_history_continuity_check.2.2 _ hchain⟩

/-- C6: constructing a `Tweet` longer than 280 characters raises an error
instead of truncating; every successfully constructed `Tweet` — in
particular every message returned by `build_tweet` — has at most 280
characters. -/
theorem tweet_length_invariant :
    (∀ s : String, 280 < s.length →
      mkTweet s = .error "Tweet content must contain less than 280 characters.") ∧
    (∀ (s : String) (t : Tweet), mkTweet s = .ok t → t.content.length ≤ 280) ∧
    (∀ (r : Nat) (day : Date) (ch : CountHistory) (publish_date : Date)
        (hashtag : Option Hashtag) (t : Tweet),
      build_tweet r day ch publish_date hashtag = .ok t →
      t.content.length ≤ 280) := by
  refine ⟨?_, ?_, ?_⟩
  · intro s hlen
    unfold mkTweet
    rw [if_pos hlen]
  · intro s t h
    exact mkTweet_ok_length h
  · intro r day ch publish_date hashtag t h
    unfold build_tweet at h
    cases hev : _compute_most_interesting_fact r day ch with
    | error e =>
      rw [hev] at h
      simp only [bind, Except.bind] at h
      cases h
    | ok ev =>
      rw [hev] at h
      simp only [bind, Except.bind] at h
      cases hfh : _compute_first_half_of_tweet day ch publish_date with
      | error e =>
        rw [hfh] at h
        simp only [Except.bind] at h
        cases h
      | ok fh =>
        rw [hfh] at h
        simp only [Except.bind] at h
        exact mkTweet_ok_length h

set_option maxRecDepth 4000 in
/-- C6 witness: a 281-character content is rejected, and a concretely
built tweet obeys the bound. -/
theorem tweet_length_invariant_witness :
    (280 < (⟨List.replicate 281 'a'⟩ : String).length ∧
      mkTweet ⟨List.replicate 281 'a'⟩ =
        .error "Tweet content must contain less than 280 characters.") ∧
    (build_tweet 0 ⟨2020, 1, 8⟩ ⟨[⟨⟨2020, 1, 8⟩, 8812⟩]⟩ ⟨2020, 1, 9⟩
        (some ⟨"#CompteurRivoli"⟩) =
      .ok ⟨"Hier, il y a eu 8812 cyclistes.\nRecord historique !\n#CompteurRivoli"⟩ ∧
      (⟨"Hier, il y a eu 8812 cyclistes.\nRecord historique !\n#CompteurRivoli"⟩ :
        Tweet).content.length ≤ 280) :=
  ⟨⟨by decide, tweet_length_invariant.1 _ (by decide)⟩,
   ⟨by decide,
    tweet_length_invariant.2.2 0 ⟨2020, 1, 8⟩ ⟨[⟨⟨2020, 1, 8⟩, 8812⟩]⟩ ⟨2020, 1, 9⟩
      (some ⟨"#CompteurRivoli"⟩) _ (by decide)⟩⟩

/-- C8: for every constructed `CountHistory` and every day present in its
lookup dict, `_get_day_rank` succeeds: the optimistic rank is strictly
below the number of days, so the validation branch of
`DayHistoricalRankEvent` is not taken. -/
theorem get_day_rank_never_fails
    (l : List DayCount) (ch : CountHistory) (day : Date) (c : Int)
    (_hvalid : mkCountHistory l = .ok ch)
    (hget : dictGet (day_to_count ch) day = some c) :
    ∃ ev, _get_day_rank day ch = .ok ev ∧ ev.rank < ev.among_nb_days := by
  have hsafe : _safe_get_count day ch = .ok c := by
    unfold _safe_get_count
    rw [hget]
  have hmem : c ∈ dictValues (day_to_count ch) := dictGet_mem_values _ _ _ hget
  have hmem2 : c ∈ sortedDesc (dictValues (day_to_count ch)) :=
    ((List.perm_insertionSort _ _).mem_iff).mpr hmem
  obtain ⟨r, hr⟩ := findRank_isSome_of_mem hmem2
  have hsound := findRank_sound _ _ _ hr
  have hropt : _optimistic_rank c (dictValues (day_to_count ch)) = .ok r := by
    unfold _optimistic_rank
    rw [hr]
  have hdayrank : _day_rank day ch = .ok r := by
    unfold _day_rank
    rw [hsafe]
    simp only [bind, Except.bind]
    exact hropt
  have hlt : r < (dictValues (day_to_count ch)).length := by
    have hperm : (sortedDesc (dictValues (day_to_count ch))).length =
        (dictValues (day_to_count ch)).length :=
      (List.perm_insertionSort _ _).length_eq
    have := hsound.1
    omega
  have hle : (dictValues (day_to_count ch)).length ≤ ch.daily_counts.length := by
    unfold day_to_count
    have h1 : (dictValues (dictOf (ch.daily_counts.map fun c => (c.date, c.count)))).length =
        (dictOf (ch.daily_counts.map fun c => (c.date, c.count))).length :=
      List.length_map _ _
    have h2 := dictOf_length_le (ch.daily_counts.map fun c => (c.date, c.count))
    have h3 : (ch.daily_counts.map fun c => (c.date, c.count)).length =
        ch.daily_counts.length := List.length_map _ _
    omega
  have hfin : r < ch.daily_counts.length := by omega
  refine ⟨⟨r, ch.daily_counts.length⟩, ?_, hfin⟩
  unfold _get_day_rank
  rw [hdayrank]
  simp only [bind, Except.bind]
  unfold mkDayHistoricalRankEvent
  rw [if_neg (not_le.mpr hfin)]

/-- C8 witness on a one-day history. -/
theorem get_day_rank_never_fails_witness :
    mkCountHistory [⟨⟨2020, 1, 8⟩, 8812⟩] = .ok ⟨[⟨⟨2020, 1, 8⟩, 8812⟩]⟩ ∧
    dictGet (day_to_count ⟨[⟨⟨2020, 1, 8⟩, 8812⟩]⟩) ⟨2020, 1, 8⟩ = some 8812 ∧
    ∃ ev, _get_day_rank ⟨2020, 1, 8⟩ ⟨[⟨⟨2020, 1, 8⟩, 8812⟩]⟩ = .ok ev ∧
      ev.rank < ev.among_nb_days :=
  ⟨by decide, by decide,
   get_day_rank_never_fails [⟨⟨2020, 1, 8⟩, 8812⟩] ⟨[⟨⟨2020, 1, 8⟩, 8812⟩]⟩
     ⟨2020, 1, 8⟩ 8812 (by decide) (by decide)⟩

/-- C9 counterexample: the empty history is a valid `CountHistory`, its
CSV serialization is the empty string, and reloading that string fails
(Python: `''.split('\n') == ['']` and unpacking `''.split(',')` into two
fields raises) instead of yielding the original empty sequence. -/
theorem csv_roundtrip_fails_on_empty_history :
    mkCountHistory [] = .ok ⟨[]⟩ ∧
    CountHistory.to_csv ⟨[]⟩ = "" ∧
    CountHistory.from_csv (CountHistory.to_csv ⟨[]⟩) = .error "values to unpack" :=
  ⟨rfl, rfl, by decide⟩

/-- C9 amended: for every valid **non-empty** `CountHistory` the CSV
round-trip returns an identical history, and for every valid
`CountHistory` (including the empty one) the JSON round-trip returns an
identical history. -/
theorem serialization_roundtrip :
    (∀ (l : List DayCount) (ch : CountHistory),
      mkCountHistory l = .ok ch → (∀ dc ∈ l, ValidDate dc.date) → l ≠ [] →
      CountHistory.from_csv (CountHistory.to_csv ch) = .ok ch) ∧
    (∀ (l : List DayCount) (ch : CountHistory),
      mkCountHistory l = .ok ch → (∀ dc ∈ l, ValidDate dc.date) →
      CountHistory.from_json (CountHistory.to_json ch) = .ok ch) := by
  constructor
  · intro l ch hmk hvalid hne
    obtain ⟨hcheck, rfl⟩ := mkCountHistory_ok hmk
    unfold CountHistory.from_csv
    have hdata : (CountHistory.to_csv ⟨l⟩).data =
        joinChar '\n' (l.map (fun c => (DayCount.to_csv c).data)) := rfl
    rw [hdata]
    rw [splitChar_joinChar '\n' _ (by simpa using hne) (by
      intro p hp
      obtain ⟨dc, _, rfl⟩ := List.mem_map.mp hp
      exact newline_not_mem_line dc)]
    rw [mapM_from_csv_ok l hvalid]
    show mkCountHistory l = .ok ⟨l⟩
    unfold mkCountHistory
    rw [hcheck]
  · intro l ch hmk hvalid
    obtain ⟨hcheck, rfl⟩ := mkCountHistory_ok hmk
    unfold CountHistory.from_json CountHistory.to_json
    rw [mapM_from_json_ok l hvalid]
    show mkCountHistory l = .ok ⟨l⟩
    unfold mkCountHistory
    rw [hcheck]

/-- C9 witness on a valid two-day history. -/
theorem serialization_roundtrip_witness :
    mkCountHistory csvWitnessList = .ok ⟨csvWitnessList⟩ ∧
    (∀ dc ∈ csvWitnessList, ValidDate dc.date) ∧
    csvWitnessList ≠ [] ∧
    CountHistory.from_csv (CountHistory.to_csv ⟨csvWitnessList⟩) =
      .ok ⟨csvWitnessList⟩ ∧
    CountHistory.from_json (CountHistory.to_json ⟨csvWitnessList⟩) =
      .ok ⟨csvWitnessList⟩ :=
  ⟨by decide, by decide, by decide,
   serialization_roundtrip.1 csvWitnessList ⟨csvWitnessList⟩
     (by decide) (by decide) (by decide),
   serialization_roundtrip.2 csvWitnessList ⟨csvWitnessList⟩
     (by decide) (by decide)⟩

/-- C7: for every positive integer, `_number_is_funny` agrees with the
specification's characterization (identical digits with at least 3 of
them, or a multiple of the power of ten matching the digit count), and
it takes the claimed values on the ten quoted inputs. -/
theorem number_is_funny_matches_spec :
    (∀ n : Nat, 0 < n → (_number_is_funny (n : Int) = true ↔ specLooksFunny n)) ∧
    _number_is_funny 1000 = true ∧ _number_is_funny 9999 = true ∧
    _number_is_funny 1000000 = true ∧ _number_is_funny 9000 = true ∧
    _number_is_funny 777 = true ∧ _number_is_funny 31 = false ∧
    _number_is_funny 319 = false ∧ _number_is_funny 1001 = false ∧
    _number_is_funny 10001 = false ∧ _number_is_funny 999990 = false := by
  refine ⟨?_, by decide, by decide, by decide, by decide, by decide,
    by decide, by decide, by decide, by decide, by decide⟩
  intro n hn
  unfold _number_is_funny
  rw [if_if_true_false_eq_true, intChars_natCast]
  have h1 : (natChars n).dedup.length = 1 ↔
      ∃ c, natChars n = List.replicate (natChars n).length c :=
    dedup_length_eq_one_iff (natChars_ne_nil n)
  have hcast : ((10 : Int) ^ ((natChars n).length - 1)) =
      (((10 : Nat) ^ ((natChars n).length - 1) : Nat) : Int) := by
    push_cast
    ring
  have h2 : ((n : Int) % ((10 : Int) ^ ((natChars n).length - 1)) = 0) ↔
      (10 : Nat) ^ ((natChars n).length - 1) ∣ n := by
    rw [hcast]
    constructor
    · intro h
      exact_mod_cast Int.dvd_of_emod_eq_zero h
    · intro h
      exact Int.emod_eq_zero_of_dvd (Int.natCast_dvd_natCast.mpr h)
  rw [h1, h2]
  unfold specLooksFunny
  tauto

/-- C7 witness at 777. -/
theorem number_is_funny_matches_spec_witness :
    0 < 777 ∧ (_number_is_funny (777 : Int) = true ↔ specLooksFunny 777) :=
  ⟨by decide, number_is_funny_matches_spec.1 777 (by decide)⟩

/-- C10: every one-digit non-negative total renders as a single character,
so the modulus `10 ^ (digit count - 1)` is `10 ^ 0 = 1` and
`_number_is_funny` accepts it; `HistoricalTotalEvent.default_score`
therefore returns 0.75 (75 in hundredths) on every total below 10. -/
theorem single_digit_totals_are_funny :
    ∀ n : Nat, n < 10 →
      (intChars (n : Int)).length = 1 ∧
      (10 : Int) ^ ((intChars (n : Int)).length - 1) = 1 ∧
      _number_is_funny (n : Int) = true ∧
      HistoricalTotalEvent.default_score ⟨(n : Int)⟩ = 75 := by decide

/-- C4: `_optimistic_rank` sorts the values descendingly (a sorted
permutation of the input); for a present target it returns the smallest
index of the target in that descending order, a value inside
`[0, values.length)`; for an absent target it raises. -/
theorem optimistic_rank_spec (target : Int) (values : List Int) :
    (sortedDesc values).Sorted (· ≥ ·) ∧
    (sortedDesc values).Perm values ∧
    (target ∈ values →
      ∃ r, _optimistic_rank target values = .ok r ∧ r < values.length ∧
        (sortedDesc values).getD r 0 = target ∧
        ∀ j < r, (sortedDesc values).getD j 0 ≠ target) ∧
    (target ∉ values →
      _optimistic_rank target values = .error "target not found in values.") := by
  refine ⟨List.sorted_insertionSort _ values, List.perm_insertionSort _ values, ?_, ?_⟩
  · intro hmem
    have hmem' : target ∈ sortedDesc values :=
      ((List.perm_insertionSort _ values).mem_iff).mpr hmem
    obtain ⟨r, hr⟩ := findRank_isSome_of_mem hmem'
    obtain ⟨h1, h2, h3⟩ := findRank_sound target (sortedDesc values) r hr
    refine ⟨r, ?_, ?_, h2, h3⟩
    · unfold _optimistic_rank
      rw [hr]
    · have hlen : (sortedDesc values).length = values.length :=
        (List.perm_insertionSort _ values).length_eq
      omega
  · intro hmem
    have hmem' : target ∉ sortedDesc values := fun hc =>
      hmem (((List.perm_insertionSort _ values).mem_iff).mp hc)
    unfold _optimistic_rank
    rw [(findRank_eq_none_iff target (sortedDesc values)).mpr hmem']

/-- C2: `_elect_event` fails on the empty list; on a non-empty list it
returns an event whose score is maximal, and the tied index list is
exactly (without duplicates) the set of maximum-scoring positions, each
residue class of the random source `r` modulo the number of tied events
selecting one distinct tied event — a uniform random source therefore
picks every tied event with equal probability. -/
theorem elect_event_selection_spec :
    (∀ r : Nat, _elect_event r [] = .error "Need at least one event to choose one.") ∧
    (∀ (events : List Event) (r : Nat), events ≠ [] →
      tiedIndices (events.map _score_event) ≠ [] ∧
      (tiedIndices (events.map _score_event)).Nodup ∧
      (∀ i, i ∈ tiedIndices (events.map _score_event) ↔
        i < events.length ∧
          ∀ s ∈ events.map _score_event, s ≤ (events.map _score_event).getD i 0) ∧
      (∃ e, _elect_event r events = .ok e ∧
        ∀ s ∈ events.map _score_event, s ≤ _score_event e) ∧
      (∀ k, k < (tiedIndices (events.map _score_event)).length →
        _elect_event k events =
          .ok (events.getD ((tiedIndices (events.map _score_event)).getD k 0)
            (.historicalRecord ⟨⟩))) ∧
      (∀ ru : Nat, _elect_event ru events =
        _elect_event (ru % (tiedIndices (events.map _score_event)).length) events)) := by
  constructor
  · intro r
    rfl
  · intro events r hne
    cases events with
    | nil => exact absurd rfl hne
    | cons e0 rest =>
      have hTne : tiedIndices ((e0 :: rest).map _score_event) ≠ [] := by
        rw [List.map_cons]
        exact tiedIndices_ne_nil _ _
      have hTlen : 0 < (tiedIndices ((e0 :: rest).map _score_event)).length :=
        List.length_pos.mpr hTne
      refine ⟨hTne, tiedIndices_nodup _, ?_, ?_, ?_, ?_⟩
      · intro i
        rw [mem_tiedIndices]
        rw [List.length_map]
      · have hjmem : (tiedIndices ((e0 :: rest).map _score_event)).getD
            (r % (tiedIndices ((e0 :: rest).map _score_event)).length) 0 ∈
            tiedIndices ((e0 :: rest).map _score_event) :=
          getD_mem_of_lt 0 (Nat.mod_lt _ hTlen)
        have hj := (mem_tiedIndices _ _).mp hjmem
        have hjlen : (tiedIndices ((e0 :: rest).map _score_event)).getD
            (r % (tiedIndices ((e0 :: rest).map _score_event)).length) 0 <
            (e0 :: rest).length := by
          simpa using hj.1
        refine ⟨(e0 :: rest).getD _ (.historicalRecord ⟨⟩), elect_event_cons r e0 rest, ?_⟩
        intro s hs
        have hle := hj.2 s hs
        rwa [getD_map_score _ _ hjlen] at hle
      · intro k hk
        rw [elect_event_cons k e0 rest, Nat.mod_eq_of_lt hk]
      · intro ru
        rw [elect_event_cons ru e0 rest, elect_event_cons
          (ru % (tiedIndices ((e0 :: rest).map _score_event)).length) e0 rest,
          Nat.mod_mod_of_dvd ru (dvd_refl _)]

/-- C2 witness on a two-event list with distinct scores, random source 0. -/
theorem elect_event_selection_spec_witness :
    electWitnessEvents ≠ [] ∧
      (tiedIndices (electWitnessEvents.map _score_event) ≠ [] ∧
      (tiedIndices (electWitnessEvents.map _score_event)).Nodup ∧
      (∀ i, i ∈ tiedIndices (electWitnessEvents.map _score_event) ↔
        i < electWitnessEvents.length ∧
          ∀ s ∈ electWitnessEvents.map _score_event,
            s ≤ (electWitnessEvents.map _score_event).getD i 0) ∧
      (∃ e, _elect_event 0 electWitnessEvents = .ok e ∧
        ∀ s ∈ electWitnessEvents.map _score_event, s ≤ _score_event e) ∧
      (∀ k, k < (tiedIndices (electWitnessEvents.map _score_event)).length →
        _elect_event k electWitnessEvents =
          .ok (electWitnessEvents.getD
            ((tiedIndices (electWitnessEvents.map _score_event)).getD k 0)
            (.historicalRecord ⟨⟩))) ∧
      (∀ ru : Nat, _elect_event ru electWitnessEvents =
        _elect_event
          (ru % (tiedIndices (electWitnessEvents.map _score_event)).length)
          electWitnessEvents)) :=
  ⟨by decide, elect_event_selection_spec.2 electWitnessEvents 0 (by decide)⟩

/-- C4 witness at target 2 in [3, 1, 2]. -/
theorem optimistic_rank_spec_witness :
    (2 : Int) ∈ [(3 : Int), 1, 2] ∧
      (∃ r, _optimistic_rank 2 [(3 : Int), 1, 2] = .ok r ∧
        r < [(3 : Int), 1, 2].length ∧
        (sortedDesc [(3 : Int), 1, 2]).getD r 0 = 2 ∧
        ∀ j < r, (sortedDesc [(3 : Int), 1, 2]).getD j 0 ≠ 2) :=
  ⟨by decide, (optimistic_rank_spec 2 [3, 1, 2]).2.2.1 (by decide)⟩

/-- C10 witness at 7. -/
theorem single_digit_totals_are_funny_witness :
    (7 : Nat) < 10 ∧
      ((intChars ((7 : Nat) : Int)).length = 1 ∧
        (10 : Int) ^ ((intChars ((7 : Nat) : Int)).length - 1) = 1 ∧
        _number_is_funny ((7 : Nat) : Int) = true ∧
        HistoricalTotalEvent.default_score ⟨((7 : Nat) : Int)⟩ = 75) :=
  ⟨by decide, single_digit_totals_are_funny 7 (by decide)⟩

end Rivoli
